import Mathlib

/-!
Verification of the SRC webhook sender (src/sender.go) against its
specification. The Go source is embedded shallowly: the run/webhook JSON
records become Lean structures, loops become structural recursions, Go's
map accesses become association-list operations (a Go map's iteration
sequence is modelled as the list of its entries), `float64` durations are
modelled as rationals, and the two network collaborators (the Discord
destination and the speedrun.com personal-bests endpoint) are modelled by
explicit result values / oracles.
-/

namespace SRC

/-- Names of a player, `Data.Players.Data[i].Names` in sender.go.
Only the `international` name is read by the sender. -/
structure PlayerNames where
  international : String
  deriving Repr, DecidableEq

/-- One entry of `Data.Players.Data` in sender.go: a registered player has a
non-empty `id` and `names.international`; a guest only has `name`. -/
structure Player where
  id : String
  name : String
  names : PlayerNames
  deriving Repr, DecidableEq

/-- Default (zero-valued) player, used for the `getD` modelling of Go slice
indexing; Go itself panics on an out-of-range index. -/
def defaultPlayer : Player :=
  ⟨"", "", ⟨""⟩⟩

/-- One variable definition of `Data.Category.Data.Variables.Data` in
sender.go. The Go `Values["choices"]` map (choice id → display label) is
modelled as the association list of its entries in iteration order. -/
structure GameVariable where
  id : String
  name : String
  isSubcategory : Bool
  choices : List (String × String)
  deriving Repr, DecidableEq

/-- `Data.Category.Data` in sender.go (the fields the sender reads). -/
structure Category where
  id : String
  name : String
  «variables» : List GameVariable
  deriving Repr, DecidableEq

/-- An incoming run, `Data` in sender.go, restricted to the fields the
sender reads. `values` models the Go map `run.Values` (variable id →
chosen choice id) as the association list of its entries in iteration
order; `primary` models the `float64` field `Times.Primary` as a rational;
`status` is `Status.Status`. -/
structure Data where
  id : String
  gameId : String
  status : String
  category : Category
  values : List (String × String)
  players : List Player
  primary : ℚ
  deriving Repr, DecidableEq

/-- `Webhook.Records` in sender.go. -/
structure Records where
  categories : List String
  users : List String
  events : String
  deriving Repr, DecidableEq

/-- A stored subscription, `Webhook` in sender.go (the `Verification`
block is accepted and ignored by the sender, so it is omitted). -/
structure Webhook where
  webhookUrl : String
  records : Records
  playerIndex : Nat
  deriving Repr, DecidableEq

/-- `webhook.PlayerIndex = i` in sender.go (Go copies the struct when
ranging, so the stored subscription itself is unchanged). -/
def setIndex (w : Webhook) (i : Nat) : Webhook :=
  ⟨w.webhookUrl, w.records, i⟩

/-! ### Duration formatting (SendWebhook, lines 371–391)

The Go code computes `s, ms := math.Modf(run.Times.Primary)`, renders
`time.Duration(s) * time.Second` with `Duration.String()`, inserts a space
after the first `h`, `m` and `s` with `strings.Replace(_, _, _, 1)`, and
appends `fmt.Sprintf("%.3f", ms)[2:] + "ms"` when that string is not
`"0.000"`. Durations are nonnegative, so Modf's integer part is the
floor. -/

/-- Zero-pad a count of milliseconds to 3 digits. -/
def pad3 (k : ℕ) : String :=
  if k < 10 then "00" ++ toString k
  else if k < 100 then "0" ++ toString k
  else toString k

/-- The thousandths digit string of the rational `n / d` (with `0 ≤ n < d`)
rounded to the nearest integer count of thousandths, ties to even: the
value of `1000 * n / d` is `Int.ediv (1000 * n) d` plus a remainder of
`Int.emod (1000 * n) d` over `d`, and that remainder is compared with one
half. This is the rounding `fmt.Sprintf("%.3f", ·)` performs (Go's
strconv rounds the value to the requested precision, ties to even). -/
def roundHE (n : ℤ) (d : ℕ) : ℤ :=
  let fl : ℤ := Int.ediv (1000 * n) d
  let r : ℤ := Int.emod (1000 * n) d
  if 2 * r < d then fl
  else if 2 * r > d then fl + 1
  else if fl % 2 = 0 then fl else fl + 1

/-- `fmt.Sprintf("%.3f", ms)` for the fractional part `ms = n / d` with
`0 ≤ n < d` (so the result is `0.000` … `1.000`). -/
def fmtMs (n : ℤ) (d : ℕ) : String :=
  let k : ℕ := (roundHE n d).toNat
  if k ≥ 1000 then "1.000" else "0." ++ pad3 k

/-- `(time.Duration(secs) * time.Second).String()` for a whole number of
seconds: `0` prints as `0s`; otherwise seconds, minutes when the total
reaches a minute, hours when it reaches an hour, with no separators. -/
def goDurString (secs : ℕ) : String :=
  if secs = 0 then "0s"
  else
    let s := secs % 60
    let m := secs / 60 % 60
    let h := secs / 3600
    if h > 0 then toString h ++ "h" ++ toString m ++ "m" ++ toString s ++ "s"
    else if m > 0 then toString m ++ "m" ++ toString s ++ "s"
    else toString s ++ "s"

/-- `strings.Replace(s, string(c), string(c) + " ", 1)`: insert a space
after the first occurrence of the character `c`. -/
def replace1Aux (c : Char) : List Char → List Char
  | [] => []
  | x :: xs => if x = c then x :: ' ' :: xs else x :: replace1Aux c xs

/-- String version of `replace1Aux`. -/
def replace1 (s : String) (c : Char) : String :=
  String.mk (replace1Aux c s.data)

/-- The run-time rendering of SendWebhook, lines 371–391: split the primary
time with `math.Modf` (durations are nonnegative, so the integer part is
the floor and the fractional part is `(num - floor * den) / den`), render
the whole seconds, space the unit suffixes, append the millisecond
remainder when it is non-zero, and fall back to `0s` for an empty string
(dead in practice since `goDurString` is never empty). -/
def formatTime (primary : ℚ) : String :=
  let s : ℤ := Rat.floor primary
  let fracNum : ℤ := primary.num - s * (primary.den : ℤ)
  let msString := fmtMs fracNum primary.den
  let rt := goDurString s.toNat
  let rt := replace1 rt ('h')
  let rt := replace1 rt ('m')
  let rt := replace1 rt ('s')
  let rt := if msString ≠ "0.000" then rt ++ String.drop msString 2 ++ "ms" else rt
  if rt = "" then "0s" else rt

/-! ### Subscription matching (HandleVerified, lines 290–322)

Per webhook: the loop over `webhook.Records.Categories` matches when a
listed category equals the run's category id and the first player's
international name is non-empty (`run.Players.Data[0]` is modelled with
`headD`; Go itself panics there when the player list is empty, so all
theorems about matching assume a non-empty player list); on a hit,
`continue nextWebhook` skips the player loop. Otherwise the loop over
`run.Players.Data` finds the first player whose id appears in
`webhook.Records.Users`. -/

/-- The category loop of HandleVerified (lines 296–305) as a Bool. -/
def categoryHit (run : Data) (w : Webhook) : Bool :=
  w.records.categories.any fun category =>
    category == run.category.id &&
      (run.players.headD defaultPlayer).names.international != ""

/-- The player loop of HandleVerified (lines 306–314): index of the first
player whose id appears in the webhook's user list. -/
def findPlayerIdx (users : List String) : List Player → Option ℕ
  | [] => none
  | p :: ps =>
    if users.any (fun wPlayer => wPlayer == p.id) then some 0
    else (findPlayerIdx users ps).map (· + 1)

/-- The whole `nextWebhook` body for one webhook: the category rule is
tried first and, on a hit, the participant rule is skipped. -/
def matchWebhook (run : Data) (w : Webhook) : Option ℕ :=
  if categoryHit run w then some 0 else findPlayerIdx w.records.users run.players

/-- Go map assignment `m[k] = v`: overwrite the entry when the key is
present, otherwise add a new entry. -/
def mapInsert (m : List (String × Webhook)) (k : String) (v : Webhook) :
    List (String × Webhook) :=
  if m.any (fun e => e.1 == k) then
    m.map fun e => if e.1 == k then (k, v) else e
  else m ++ [(k, v)]

/-- The `webhooksToSend` map built by HandleVerified for one run, as the
entry list of the Go map keyed by webhook URL. -/
def handleRunMatches (webhooks : List Webhook) (run : Data) :
    List (String × Webhook) :=
  webhooks.foldl
    (fun m w =>
      match matchWebhook run w with
      | some i => mapInsert m w.webhookUrl (setIndex w i)
      | none => m)
    []

/-- The per-webhook step of the HandleVerified fold. -/
def matchStep (run : Data) (m : List (String × Webhook)) (w : Webhook) :
    List (String × Webhook) :=
  match matchWebhook run w with
  | some i => mapInsert m w.webhookUrl (setIndex w i)
  | none => m

/-! ### Personal-bests lookup and classification (SendWebhook lines
429–504, GetPersonalBests, parseResPBs) -/

/-- One entry of the personal-bests response, `PBs.Data[i]` in sender.go. -/
structure PBEntry where
  place : ℕ
  runId : String
  deriving Repr, DecidableEq

/-- `PBs` in sender.go. -/
structure PBs where
  data : List PBEntry
  deriving Repr, DecidableEq

/-- The upstream HTTP result handed to parseResPBs: `failed` is a `nil`
response (transport error, including the rate-limiter context error);
`resp` is a status code and the parse of a body that was read in full
(`none` when `json.Unmarshal` fails, in which case the Go code ignores
the error and keeps the zero `PBs` value); `respReadErr` is a non-nil
response whose body read — `io.ReadAll(r.Body)` — fails (a network error
or timeout while the body is read). -/
inductive Upstream where
  | failed : Upstream
  | resp : ℕ → Option PBs → Upstream
  | respReadErr : ℕ → Upstream
  deriving Repr, DecidableEq

/-- How parseResPBs ends: a returned `PBs` value, or the `log.Panic(err)`
the function calls on a body-read error, which crashes the process. -/
inductive PBsResult where
  | panicked : PBsResult
  | ok : PBs → PBsResult
  deriving Repr, DecidableEq

/-- parseResPBs (lines 625–637): a nil response or HTTP 400/404 yields the
zero value before the body is read; otherwise the body is read —
`log.Panic` on a read error — and parsed, with a failed parse left as the
zero value. -/
def parseResPBs : Upstream → PBsResult
  | .failed => .ok ⟨[]⟩
  | .resp status body =>
    if status == 400 || status == 404 then .ok ⟨[]⟩ else .ok (body.getD ⟨[]⟩)
  | .respReadErr status =>
    if status == 400 || status == 404 then .ok ⟨[]⟩ else .panicked

/-- `humanize.Ordinal` from github.com/dustin/go-humanize: choose the
suffix from the last digit, except for 11/12/13 mod 100. -/
def ordinal (x : ℕ) : String :=
  let suffix :=
    if x % 10 == 1 && x % 100 != 11 then "st"
    else if x % 10 == 2 && x % 100 != 12 then "nd"
    else if x % 10 == 3 && x % 100 != 13 then "rd"
    else "th"
  toString x ++ suffix

/-- The classification loop of SendWebhook (lines 437–444) for one
delivery: scan the personal-bests list for the run's id; on the first hit
set `isPb` and the ordinal `place`; otherwise both stay at their zero
values (`place` starts as the empty string in the delivery considered in
isolation). Returns `(isPb, place)`. -/
def classify (pbs : PBs) (runId : String) : Bool × String :=
  match pbs.data.find? (fun pb => pb.runId == runId) with
  | some pb => (true, ordinal pb.place)
  | none => (false, "")

/-- The three classification outcomes distinguished by the title /
description switch of SendWebhook (lines 495–504): `place == "1st"` is a
world record, otherwise `isPb` is a personal best, otherwise ordinary. -/
inductive RunKind where
  | worldRecord : RunKind
  | personalBest : RunKind
  | ordinary : RunKind
  deriving Repr, DecidableEq

/-- The branch of lines 495–504 taken for a classification. -/
def classKind (c : Bool × String) : RunKind :=
  if c.2 == "1st" then .worldRecord
  else if c.1 then .personalBest
  else .ordinary

/-- Line 489: the footer is attached iff `place != "" && isPb`. -/
def hasFooter (c : Bool × String) : Bool :=
  c.2 != "" && c.1

/-! ### Category / variables composition (SendWebhook, lines 328–353 and
381–388)

The Go code ranges over the map `run.Values` (outer loop, modelled as its
entry list in iteration order), over the category's variable declarations
(middle loop), and over the matching variable's `choices` map (inner
loop), accumulating the `category` and `variables` strings. -/

/-- The effect of one matched choice (`varId == value`, lines 334–348) on
the accumulated `(category, variables)` pair. -/
def applyChoice (catName : String) (v : GameVariable) (label : String)
    (st : String × String) : String × String :=
  if v.isSubcategory then
    if st.1 != "" then (st.1 ++ ", " ++ label, st.2)
    else (catName ++ " (" ++ label, st.2)
  else
    if st.2 != "" then (st.1, st.2 ++ ", " ++ v.name ++ ": " ++ label)
    else (st.1, " (" ++ v.name ++ ": " ++ label)

/-- The inner loop over a variable's choices (lines 333–349). -/
def choiceLoop (catName : String) (v : GameVariable) (value : String) :
    List (String × String) → String × String → String × String
  | [], st => st
  | ch :: rest, st =>
    choiceLoop catName v value rest
      (if ch.1 == value then applyChoice catName v ch.2 st else st)

/-- The middle loop over the category's variables (lines 331–352),
guarded by `variable.ID == key`. -/
def varLoop (catName key value : String) :
    List GameVariable → String × String → String × String
  | [], st => st
  | v :: rest, st =>
    varLoop catName key value rest
      (if v.id == key then choiceLoop catName v value v.choices st else st)

/-- The outer loop over `run.Values` (lines 330–353). -/
def valuesLoop (catName : String) (vars : List GameVariable) :
    List (String × String) → String × String → String × String
  | [], st => st
  | kv :: rest, st =>
    valuesLoop catName vars rest (varLoop catName kv.1 kv.2 vars st)

/-- The accumulated `(category, variables)` strings after the loops, from
empty initial values (line 328). -/
def buildStrings (catName : String) (vars : List GameVariable)
    (values : List (String × String)) : String × String :=
  valuesLoop catName vars values ("", "")

/-- The final `category` field value (lines 381–385): close the
parenthesis, or fall back to the bare category name. -/
def categoryLabel (catName : String) (vars : List GameVariable)
    (values : List (String × String)) : String :=
  let st := buildStrings catName vars values
  if st.1 != "" then st.1 ++ ")" else catName

/-- The final `variables` field value (lines 386–388): close the
parenthesis when non-empty (the field is only attached when non-empty). -/
def variablesField (catName : String) (vars : List GameVariable)
    (values : List (String × String)) : String :=
  let st := buildStrings catName vars values
  if st.2 != "" then st.2 ++ ")" else ""

/-- The subcategory labels one variable's choice loop resolves for a
chosen value, in choices-iteration order. -/
def labelsOfChoices (v : GameVariable) (value : String)
    (chs : List (String × String)) : List String :=
  if v.isSubcategory then (chs.filter fun ch => ch.1 == value).map Prod.snd
  else []

/-- The subcategory labels the variable loop resolves for one
`run.Values` entry, in variable-declaration order. -/
def labelsOfVars (key value : String) (vars : List GameVariable) : List String :=
  vars.flatMap fun v =>
    if v.id == key then labelsOfChoices v value v.choices else []

/-- All subcategory labels resolved for a run, in the iteration order of
`run.Values` (the order the Go `range` yields the map entries in). -/
def subcatLabels (vars : List GameVariable)
    (values : List (String × String)) : List String :=
  values.flatMap fun kv => labelsOfVars kv.1 kv.2 vars

/-- The subcategory labels in category-declaration order — the order the
specification asserts for the composed label. -/
def subcatLabelsDecl (vars : List GameVariable)
    (values : List (String × String)) : List String :=
  vars.flatMap fun v =>
    if v.isSubcategory then
      values.flatMap fun kv =>
        if v.id == kv.1 then (v.choices.filter fun ch => ch.1 == kv.2).map Prod.snd
        else []
    else []

/-- Comma-join a list of labels. -/
def joinComma : List String → String
  | [] => ""
  | l :: ls => ls.foldl (fun s x => s ++ ", " ++ x) l

/-- The accumulated `category` string after a list of subcategory labels
has been processed: empty for no label, otherwise the opened parenthesis
followed by the comma-joined labels. -/
def catAcc (catName : String) : List String → String
  | [] => ""
  | l :: ls => ls.foldl (fun s x => s ++ ", " ++ x) (catName ++ " (" ++ l)

/-- The Bool deciding whether one `run.Values` entry resolves to a
declared variable and a declared choice. -/
def resolvable (vars : List GameVariable) (kv : String × String) : Bool :=
  vars.any fun v => v.id == kv.1 && v.choices.any fun ch => ch.1 == kv.2

/-! ### Delivery outcome handling (SendWebhook lines 514–525,
DiscordClient.Do lines 217–228, DeleteWebhook lines 593–604) -/

/-- The result of `cD.Do`: a transport (or limiter) error returns a nil
response, otherwise an HTTP status code. -/
inductive DeliverResult where
  | transportError : DeliverResult
  | status : ℕ → DeliverResult
  deriving Repr, DecidableEq

/-- What the goroutine of SendWebhook does after `cD.Do` returns
(lines 514–525): `panicked` records that `res.StatusCode` was read from a
nil response — the Go runtime panic that kills the process; `logged`
records whether any `log.Printf` ran; `deleted` whether DeleteWebhook was
called. On a transport error the error is logged, and then the nil `res`
is dereferenced. A 404 is logged and triggers DeleteWebhook, a 429 is
logged, every other status is silently dropped. -/
structure DeliveryEffects where
  panicked : Bool
  logged : Bool
  deleted : Bool
  deriving Repr, DecidableEq

/-- Lines 514–525 as a function of the `cD.Do` result. -/
def afterPost : DeliverResult → DeliveryEffects
  | .transportError => ⟨true, true, false⟩
  | .status code => ⟨false, code == 404 || code == 429, code == 404⟩

/-- DeleteWebhook (lines 593–604): `collection.DeleteOne` with the filter
`WebhookUrl = url` removes the first stored document matching the filter,
and removes nothing (without error) when none matches. -/
def deleteOne (store : List Webhook) (url : String) : List Webhook :=
  match store with
  | [] => []
  | w :: rest => if w.webhookUrl == url then rest else w :: deleteOne rest url

/-- `DeletedCount` reported by `collection.DeleteOne`. -/
def deletedCount (store : List Webhook) (url : String) : ℕ :=
  if store.any (fun w => w.webhookUrl == url) then 1 else 0

/-! ### The handler pipeline (runsHandler lines 264–288, HandleVerified,
SendWebhook)

The deliveries actually attempted are modelled as the list of destination
URLs POSTed to. The personal-bests endpoint is a parameter
`oracle : user id → game id → PBs` standing for the `PBs` value
parseResPBs returns for the response of GetPersonalBests in an execution
where no body-read error makes it call `log.Panic` (sender.go memoizes
the value per player index within a run, which cannot change the value of
a pure oracle). -/

/-- The goroutine filter of SendWebhook (line 467): a webhook with
`Events == "pb"` posts nothing when the run is not a personal best of the
triggering player; every other webhook in the map is posted to once. -/
def postsForRun (oracle : String → String → PBs) (run : Data)
    (entries : List (String × Webhook)) : List String :=
  entries.filterMap fun e =>
    let pbs := oracle (run.players.getD e.2.playerIndex defaultPlayer).id run.gameId
    let c := classify pbs run.id
    if e.2.records.events == "pb" && !c.1 then none else some e.1

/-- HandleVerified over the whole batch: per run, build the match map and
perform its deliveries. -/
def handleVerifiedPosts (oracle : String → String → PBs)
    (webhooks : List Webhook) (runs : List Data) : List String :=
  runs.flatMap fun run => postsForRun oracle run (handleRunMatches webhooks run)

/-- How runsHandler ends: `log.Fatal` / a runtime panic, or a 200 response
after issuing the given POSTs. -/
inductive HandlerOutcome where
  | fatal : HandlerOutcome
  | ok : List String → HandlerOutcome
  deriving Repr, DecidableEq

/-- runsHandler (lines 264–288) on the parse result of the request body
(`none` when `json.Unmarshal` fails, as it does on an empty body):
a parse error hits `log.Fatal`; an empty run list panics on `data[0]`;
otherwise the switch on the first run's status dispatches to
HandleVerified only for "verified" and does nothing for every other
status. -/
def runsHandler (parsed : Option (List Data)) (webhooks : List Webhook)
    (oracle : String → String → PBs) : HandlerOutcome :=
  match parsed with
  | none => .fatal
  | some [] => .fatal
  | some (d :: ds) =>
    if d.status == "verified" then .ok (handleVerifiedPosts oracle webhooks (d :: ds))
    else .ok []

/-! ## Theorems -/

/-- Conversion of the decimal literal to an evaluable rational. -/
lemma ofScientific_125_25 : (125.25 : ℚ) = mkRat 501 4 := by
  norm_num [Rat.mkRat_eq_div]

/-- Conversion of the zero literal to an evaluable rational. -/
lemma ofNat_rat_0 : (0 : ℚ) = mkRat 0 1 := by
  norm_num [Rat.mkRat_eq_div]

/-- Conversion of the 3600 literal to an evaluable rational. -/
lemma ofNat_rat_3600 : (3600 : ℚ) = mkRat 3600 1 := by
  norm_num [Rat.mkRat_eq_div]

/-- C4, counterexample: the claim says a primary duration of 0 seconds
renders exactly as "0s", but `strings.Replace(runTime, "s", "s ", 1)`
leaves a trailing space when no millisecond suffix follows, so the code
renders 0 as "0s " (and 3600.0 as "1h 0m 0s "). -/
theorem formatTime_zero_trailing_space :
    formatTime (0 : ℚ) ≠ "0s" ∧ formatTime (0 : ℚ) = "0s " := by
  rw [ofNat_rat_0]
  exact ⟨by decide, by decide⟩

/-- C4, amended: 125.25 seconds renders exactly as "2m 5s 250ms"; when the
millisecond remainder is zero the rendering keeps a trailing space after
the final unit, so 0 renders exactly as "0s " and 3600.0 renders exactly
as "1h 0m 0s ". -/
theorem formatTime_renderings :
    formatTime (125.25 : ℚ) = "2m 5s 250ms" ∧
      formatTime (0 : ℚ) = "0s " ∧
      formatTime (3600 : ℚ) = "1h 0m 0s " := by
  rw [ofScientific_125_25, ofNat_rat_0, ofNat_rat_3600]
  exact ⟨by decide, by decide, by decide⟩

/-- C3, counterexample: the claim says a failed upstream call — a network
error among them — yields the ordinary classification and is never
surfaced as an error to the caller; but when the body read of a non-nil
response with a status other than 400/404 fails (a network error or
timeout while the body streams), parseResPBs calls `log.Panic`
(sender.go lines 629–632) and the process crashes instead of producing
any classification. -/
theorem body_read_error_panics :
    parseResPBs (Upstream.respReadErr 200) = PBsResult.panicked ∧
      parseResPBs (Upstream.respReadErr 200) ≠ PBsResult.ok ⟨[]⟩ := by
  exact ⟨rfl, by decide⟩

/-- C3, amended: classification looks the run's id up in the returned
personal-bests list; a hit at place 1 is a world record with ordinal
"1st", a hit at place n is a personal best carrying the ordinal of n; a
nil response (transport error before any response arrives), HTTP 400 or
404 (before the body is read), or a fully read body that fails to
unmarshal yields the zero list and then — as for any run id absent from
the returned list — the ordinary classification with no ordinal and no
footer, with no error surfaced to the caller; a failed body read under
any other status, however, hits `log.Panic` and crashes the process. -/
theorem classification_spec (u : Upstream) (runId : String) :
    parseResPBs Upstream.failed = PBsResult.ok ⟨[]⟩ ∧
      (∀ status body, status = 400 ∨ status = 404 →
        parseResPBs (Upstream.resp status body) = PBsResult.ok ⟨[]⟩) ∧
      (∀ status, parseResPBs (Upstream.resp status none) = PBsResult.ok ⟨[]⟩) ∧
      (∀ status, status = 400 ∨ status = 404 →
        parseResPBs (Upstream.respReadErr status) = PBsResult.ok ⟨[]⟩) ∧
      (∀ status, ¬(status = 400 ∨ status = 404) →
        parseResPBs (Upstream.respReadErr status) = PBsResult.panicked) ∧
      (∀ pbs, parseResPBs u = PBsResult.ok pbs →
        (∀ pb, pbs.data.find? (fun e => e.runId == runId) = some pb →
          classify pbs runId = (true, ordinal pb.place) ∧
            (pb.place = 1 →
              classKind (classify pbs runId) = RunKind.worldRecord)) ∧
        (pbs.data.find? (fun e => e.runId == runId) = none →
          classify pbs runId = (false, "") ∧
            classKind (classify pbs runId) = RunKind.ordinary ∧
            hasFooter (classify pbs runId) = false)) ∧
      classify ⟨[]⟩ runId = (false, "") := by
  refine ⟨rfl, ?_, ?_, ?_, ?_, ?_, rfl⟩
  · rintro status body (h | h) <;> simp [parseResPBs, h]
  · intro status
    by_cases h : status == 400 || status == 404 <;> simp [parseResPBs, h]
  · rintro status (h | h) <;> simp [parseResPBs, h]
  · intro status h
    rw [parseResPBs, if_neg (by simpa using h)]
  · intro pbs _
    refine ⟨fun pb hfind => ?_, fun hfind => ?_⟩
    · have hc : classify pbs runId = (true, ordinal pb.place) := by
        simp [classify, hfind]
      refine ⟨hc, fun h1 => ?_⟩
      rw [hc, h1]
      decide
    · have hc : classify pbs runId = (false, "") := by
        simp [classify, hfind]
      rw [hc]
      exact ⟨rfl, by decide, by decide⟩

/-- C3, witness: a fully read status-500 response whose body places the
run first classifies as a world record with ordinal "1st"; a nil response
parses to the zero list, and the zero list classifies as ordinary. -/
theorem classification_spec_witness :
    classify ⟨[⟨1, "r1"⟩]⟩ "r1" = (true, "1st") ∧
      classKind (classify ⟨[⟨1, "r1"⟩]⟩ "r1") = RunKind.worldRecord ∧
      parseResPBs (Upstream.resp 500 (some ⟨[⟨1, "r1"⟩]⟩)) =
        PBsResult.ok ⟨[⟨1, "r1"⟩]⟩ ∧
      parseResPBs Upstream.failed = PBsResult.ok ⟨[]⟩ ∧
      classify ⟨[]⟩ "r1" = (false, "") := by
  have h := classification_spec (Upstream.resp 500 (some ⟨[⟨1, "r1"⟩]⟩)) ("r1")
  have hfound := h.2.2.2.2.2.1 ⟨[⟨1, "r1"⟩]⟩ (by decide)
  refine ⟨?_, ?_, by decide, h.1, h.2.2.2.2.2.2⟩
  · exact (hfound.1 ⟨1, "r1"⟩ (by decide)).1
  · exact (hfound.1 ⟨1, "r1"⟩ (by decide)).2 rfl

/-! ### Matcher lemmas -/

/-- `users.any (· == a)` is membership. -/
lemma any_beq_mem (users : List String) (a : String) :
    users.any (fun u => u == a) = true ↔ a ∈ users := by
  rw [List.any_eq_true]
  constructor
  · rintro ⟨u, hu, he⟩
    rw [beq_iff_eq] at he
    exact he ▸ hu
  · intro ha
    exact ⟨a, ha, beq_self_eq_true a⟩

/-- One-step unfolding of the player loop on a cons cell. -/
lemma findPlayerIdx_cons (users : List String) (p : Player) (ps : List Player) :
    findPlayerIdx users (p :: ps) =
      if users.any (fun wPlayer => wPlayer == p.id) then some 0
      else (findPlayerIdx users ps).map (· + 1) := rfl

/-- The player loop returns an index of the player list. -/
lemma findPlayerIdx_lt (users : List String) :
    ∀ (ps : List Player) (i : ℕ), findPlayerIdx users ps = some i → i < ps.length := by
  intro ps
  induction ps with
  | nil => intro i h; exact Option.noConfusion h
  | cons p ps ih =>
    intro i h
    rw [findPlayerIdx_cons] at h
    by_cases hp : users.any (fun wPlayer => wPlayer == p.id)
    · rw [if_pos hp] at h
      injection h with h0
      subst h0
      simp
    · rw [if_neg hp] at h
      rcases Option.map_eq_some'.mp h with ⟨j, hj, rfl⟩
      have := ih j hj
      simpa using Nat.succ_lt_succ this

/-- The player loop returns the position of a player whose id is
subscribed. -/
lemma findPlayerIdx_get (users : List String) :
    ∀ (ps : List Player) (i : ℕ), findPlayerIdx users ps = some i →
      ∃ hi : i < ps.length, (ps.get ⟨i, hi⟩).id ∈ users := by
  intro ps
  induction ps with
  | nil => intro i h; exact Option.noConfusion h
  | cons p ps ih =>
    intro i h
    rw [findPlayerIdx_cons] at h
    by_cases hp : users.any (fun wPlayer => wPlayer == p.id)
    · rw [if_pos hp] at h
      injection h with h0
      subst h0
      exact ⟨by simp, (any_beq_mem users p.id).mp hp⟩
    · rw [if_neg hp] at h
      rcases Option.map_eq_some'.mp h with ⟨j, hj, rfl⟩
      obtain ⟨hjl, hmem⟩ := ih j hj
      exact ⟨by simpa using Nat.succ_lt_succ hjl, by simpa using hmem⟩

/-- The player loop succeeds exactly when some player is subscribed. -/
lemma findPlayerIdx_isSome (users : List String) :
    ∀ ps : List Player,
      (∃ i, findPlayerIdx users ps = some i) ↔ ∃ p ∈ ps, p.id ∈ users := by
  intro ps
  induction ps with
  | nil =>
    constructor
    · rintro ⟨i, hi⟩; exact Option.noConfusion hi
    · rintro ⟨p, hp, _⟩; exact absurd hp (List.not_mem_nil p)
  | cons p ps ih =>
    by_cases hp : users.any (fun wPlayer => wPlayer == p.id)
    · constructor
      · intro _
        exact ⟨p, by simp, (any_beq_mem users p.id).mp hp⟩
      · intro _
        exact ⟨0, by rw [findPlayerIdx_cons, if_pos hp]⟩
    · constructor
      · rintro ⟨i, hi⟩
        rw [findPlayerIdx_cons, if_neg hp] at hi
        rcases Option.map_eq_some'.mp hi with ⟨j, hj, rfl⟩
        obtain ⟨q, hq, hqid⟩ := ih.mp ⟨j, hj⟩
        exact ⟨q, by simp [hq], hqid⟩
      · rintro ⟨q, hq, hqid⟩
        rcases List.mem_cons.mp hq with rfl | hq
        · exact absurd ((any_beq_mem users q.id).mpr hqid) (by simpa using hp)
        · obtain ⟨j, hj⟩ := ih.mpr ⟨q, hq, hqid⟩
          refine ⟨j + 1, ?_⟩
          rw [findPlayerIdx_cons, if_neg hp, hj]
          rfl

/-- The category loop hits exactly under the spec's category rule. -/
lemma categoryHit_iff (run : Data) (w : Webhook) :
    categoryHit run w = true ↔
      run.category.id ∈ w.records.categories ∧
        (run.players.headD defaultPlayer).names.international ≠ "" := by
  simp only [categoryHit, List.any_eq_true, Bool.and_eq_true, beq_iff_eq, bne_iff_ne]
  constructor
  · rintro ⟨c, hc, rfl, hne⟩
    exact ⟨hc, hne⟩
  · rintro ⟨hc, hne⟩
    exact ⟨run.category.id, hc, rfl, hne⟩

/-- C1: a subscription matches by category rule exactly when the run's
category id is in its category list and the run's first participant has a
non-empty international name, and then the triggering index is 0 and the
participant rule is skipped; otherwise the participant rule applies, and
it matches exactly when some participant's id is in the subscription's
user list, triggering at that participant's position. (The Go code indexes
`run.Players.Data[0]`, so a non-empty participant list is assumed.) -/
theorem matcher_rules (run : Data) (w : Webhook) (hp : run.players ≠ []) :
    (categoryHit run w = true ↔
      run.category.id ∈ w.records.categories ∧
        (run.players.headD defaultPlayer).names.international ≠ "") ∧
      (categoryHit run w = true → matchWebhook run w = some 0) ∧
      (categoryHit run w = false →
        matchWebhook run w = findPlayerIdx w.records.users run.players ∧
          ((∃ i, matchWebhook run w = some i) ↔
            ∃ p ∈ run.players, p.id ∈ w.records.users) ∧
          ∀ i, matchWebhook run w = some i →
            ∃ hi : i < run.players.length,
              (run.players.get ⟨i, hi⟩).id ∈ w.records.users) := by
  refine ⟨categoryHit_iff run w, fun h => ?_, fun h => ?_⟩
  · simp [matchWebhook, h]
  · have hm : matchWebhook run w = findPlayerIdx w.records.users run.players := by
      simp [matchWebhook, h]
    refine ⟨hm, ?_, ?_⟩
    · rw [hm]
      exact findPlayerIdx_isSome w.records.users run.players
    · intro i hi
      rw [hm] at hi
      exact findPlayerIdx_get w.records.users run.players i hi

/-- C1, witness: one registered player, a category-rule hit on one webhook
and a participant-rule hit at index 0 on another. -/
theorem matcher_rules_witness :
    categoryHit
        ⟨"run1", "game1", "verified", ⟨"cat1", "Any%", []⟩, [],
          [⟨"user1", "", ⟨"Alice"⟩⟩], mkRat 0 1⟩
        ⟨"https://d/1", ⟨["cat1"], [], "all"⟩, 0⟩ = true ∧
      matchWebhook
        ⟨"run1", "game1", "verified", ⟨"cat1", "Any%", []⟩, [],
          [⟨"user1", "", ⟨"Alice"⟩⟩], mkRat 0 1⟩
        ⟨"https://d/1", ⟨["cat1"], [], "all"⟩, 0⟩ = some 0 := by
  have h := matcher_rules
    ⟨"run1", "game1", "verified", ⟨"cat1", "Any%", []⟩, [],
      [⟨"user1", "", ⟨"Alice"⟩⟩], mkRat 0 1⟩
    ⟨"https://d/1", ⟨["cat1"], [], "all"⟩, 0⟩ (by decide)
  exact ⟨by decide, h.2.1 (by decide)⟩

/-! ### Map-insertion lemmas -/

/-- Go map assignment keeps key multiplicities at most 1. -/
lemma mapInsert_countP (m : List (String × Webhook)) (k : String) (w : Webhook)
    (u : String) (hm : m.countP (fun e => e.1 == u) ≤ 1) :
    (mapInsert m k w).countP (fun e => e.1 == u) ≤ 1 := by
  unfold mapInsert
  by_cases hany : m.any (fun e => e.1 == k)
  · rw [if_pos hany, List.countP_map]
    have hsame : ∀ e ∈ m,
        (((fun e : String × Webhook => e.1 == u) ∘
          fun e : String × Webhook => if e.1 == k then (k, w) else e) e = true ↔
        (fun e : String × Webhook => e.1 == u) e = true) := by
      intro e _
      by_cases hek : e.1 == k
      · simp only [Function.comp, if_pos hek]
        rw [beq_iff_eq] at hek
        rw [hek]
      · simp only [Function.comp, if_neg hek]
    rw [List.countP_congr hsame]
    exact hm
  · rw [if_neg hany, List.countP_append]
    by_cases huk : u = k
    · subst huk
      have h0 : m.countP (fun e => e.1 == u) = 0 := by
        rw [List.countP_eq_zero]
        intro e he hbe
        exact hany (List.any_eq_true.mpr ⟨e, he, hbe⟩)
      rw [h0]
      simp [List.countP_cons]
    · have h1 : List.countP (fun e => e.1 == u) [(k, w)] = 0 := by
        simp [List.countP_cons, Ne.symm huk]
      rw [h1]
      simpa using hm

/-- After `m[k] = w`, looking `k` up yields `w`. -/
lemma mapInsert_find (k : String) (w : Webhook) :
    ∀ m : List (String × Webhook),
      (mapInsert m k w).find? (fun e => e.1 == k) = some (k, w) := by
  intro m
  induction m with
  | nil => simp [mapInsert, List.find?]
  | cons e rest ih =>
    by_cases h1 : e.1 == k
    · have hany : (e :: rest).any (fun e => e.1 == k) = true :=
        List.any_eq_true.mpr ⟨e, by simp, h1⟩
      rw [mapInsert, if_pos hany]
      simp only [List.map_cons, if_pos h1]
      rw [List.find?]
      simp
    · by_cases h2 : rest.any (fun e => e.1 == k)
      · have hany : (e :: rest).any (fun e => e.1 == k) = true := by
          simp [List.any_cons, h2]
        rw [mapInsert, if_pos hany]
        simp only [List.map_cons, if_neg h1]
        rw [List.find?]
        simp only [h1]
        have ihr := ih
        rw [mapInsert, if_pos h2] at ihr
        exact ihr
      · have hany : (e :: rest).any (fun e => e.1 == k) = false := by
          simp only [List.any_cons, Bool.or_eq_false_iff]
          exact ⟨Bool.eq_false_iff.mpr h1, Bool.eq_false_iff.mpr h2⟩
        rw [mapInsert, if_neg (by simp [hany])]
        rw [List.cons_append, List.find?]
        simp only [h1]
        have ihr := ih
        rw [mapInsert, if_neg (by simp [h2])] at ihr
        exact ihr

/-- Entries after `m[k] = w` come from `m` or are the new `(k, w)`. -/
lemma mapInsert_mem (m : List (String × Webhook)) (k : String) (w : Webhook)
    (e : String × Webhook) (he : e ∈ mapInsert m k w) : e ∈ m ∨ e = (k, w) := by
  unfold mapInsert at he
  by_cases hany : m.any (fun e => e.1 == k)
  · rw [if_pos hany] at he
    rcases List.mem_map.mp he with ⟨e0, he0, heq⟩
    by_cases h0 : e0.1 == k
    · rw [if_pos h0] at heq
      exact Or.inr heq.symm
    · rw [if_neg h0] at heq
      exact Or.inl (heq ▸ he0)
  · rw [if_neg hany] at he
    rcases List.mem_append.mp he with h | h
    · exact Or.inl h
    · exact Or.inr (List.mem_singleton.mp h)

/-- `handleRunMatches` is the fold of `matchStep` from the empty map. -/
lemma handleRunMatches_eq_foldl (webhooks : List Webhook) (run : Data) :
    handleRunMatches webhooks run = webhooks.foldl (matchStep run) [] := rfl

/-- The fold keeps every key's multiplicity at most 1. -/
lemma foldl_matchStep_countP (run : Data) (u : String) :
    ∀ (ws : List Webhook) (m : List (String × Webhook)),
      m.countP (fun e => e.1 == u) ≤ 1 →
      (ws.foldl (matchStep run) m).countP (fun e => e.1 == u) ≤ 1 := by
  intro ws
  induction ws with
  | nil => intro m hm; exact hm
  | cons w ws ih =>
    intro m hm
    rw [List.foldl_cons]
    refine ih _ ?_
    unfold matchStep
    cases matchWebhook run w with
    | none => exact hm
    | some i => exact mapInsert_countP m w.webhookUrl (setIndex w i) u hm

/-- The fold preserves any property of the entries that every inserted
entry has. -/
lemma foldl_matchStep_mem (run : Data) (P : String × Webhook → Prop)
    (hstep : ∀ w i, matchWebhook run w = some i → P (w.webhookUrl, setIndex w i)) :
    ∀ (ws : List Webhook) (m : List (String × Webhook)),
      (∀ e ∈ m, P e) → ∀ e ∈ ws.foldl (matchStep run) m, P e := by
  intro ws
  induction ws with
  | nil => intro m hm; exact hm
  | cons w ws ih =>
    intro m hm
    rw [List.foldl_cons]
    refine ih _ ?_
    intro e he
    unfold matchStep at he
    cases hmw : matchWebhook run w with
    | none => rw [hmw] at he; exact hm e he
    | some i =>
      rw [hmw] at he
      rcases mapInsert_mem m w.webhookUrl (setIndex w i) e he with h | h
      · exact hm e h
      · exact h ▸ hstep w i hmw

/-- Each POST of a run targets the key of its map entry, so per-URL POST
counts are bounded by per-URL entry counts. -/
lemma postsForRun_countP_le (oracle : String → String → PBs) (run : Data)
    (url : String) :
    ∀ entries : List (String × Webhook),
      (postsForRun oracle run entries).countP (fun u => u == url) ≤
        entries.countP (fun e => e.1 == url) := by
  intro entries
  induction entries with
  | nil => simp [postsForRun]
  | cons e rest ih =>
    rw [postsForRun, List.filterMap_cons]
    by_cases hskip : e.2.records.events == "pb" &&
        !(classify (oracle (run.players.getD e.2.playerIndex defaultPlayer).id
          run.gameId) run.id).1
    · rw [if_pos hskip]
      calc (postsForRun oracle run rest).countP (fun u => u == url)
          ≤ rest.countP (fun e => e.1 == url) := ih
        _ ≤ (e :: rest).countP (fun e => e.1 == url) := by
            rw [List.countP_cons]; omega
    · rw [if_neg hskip]
      rw [List.countP_cons, List.countP_cons]
      have := ih
      rw [postsForRun] at this
      omega

/-- C2: within one run, the `webhooksToSend` map has at most one entry per
destination URL — so at most one message is composed and POSTed per
destination per run — and an insertion for a subscription matched later in
the list overwrites any earlier match for the same URL. -/
theorem destination_at_most_once (run : Data) (ws : List Webhook) (url : String)
    (oracle : String → String → PBs) (hp : run.players ≠ []) :
    (handleRunMatches ws run).countP (fun e => e.1 == url) ≤ 1 ∧
      (postsForRun oracle run (handleRunMatches ws run)).countP
        (fun u => u == url) ≤ 1 ∧
      ∀ (w : Webhook) (i : ℕ), matchWebhook run w = some i →
        (handleRunMatches (ws ++ [w]) run).find? (fun e => e.1 == w.webhookUrl) =
          some (w.webhookUrl, setIndex w i) := by
  have hcount : (handleRunMatches ws run).countP (fun e => e.1 == url) ≤ 1 := by
    rw [handleRunMatches_eq_foldl]
    exact foldl_matchStep_countP run url ws [] (by simp)
  refine ⟨hcount, ?_, ?_⟩
  · exact le_trans (postsForRun_countP_le oracle run url (handleRunMatches ws run))
      hcount
  · intro w i hmw
    rw [handleRunMatches_eq_foldl, List.foldl_append, List.foldl_cons,
      List.foldl_nil]
    unfold matchStep
    rw [hmw]
    exact mapInsert_find w.webhookUrl (setIndex w i) _

/-- C2, witness: a webhook whose category and participant rules both hit
the same run yields exactly one map entry, and a later webhook with the
same URL overwrites the earlier one. -/
theorem destination_at_most_once_witness :
    (handleRunMatches
        [⟨"https://d/1", ⟨["cat1"], ["user1"], "all"⟩, 0⟩]
        ⟨"run1", "game1", "verified", ⟨"cat1", "Any%", []⟩, [],
          [⟨"user1", "", ⟨"Alice"⟩⟩], mkRat 0 1⟩).countP
      (fun e => e.1 == "https://d/1") ≤ 1 ∧
    (handleRunMatches
        [⟨"https://d/1", ⟨["cat1"], ["user1"], "all"⟩, 0⟩,
          ⟨"https://d/1", ⟨[], ["user1"], "pb"⟩, 0⟩]
        ⟨"run1", "game1", "verified", ⟨"cat1", "Any%", []⟩, [],
          [⟨"user1", "", ⟨"Alice"⟩⟩], mkRat 0 1⟩).find?
      (fun e => e.1 == "https://d/1") =
      some ("https://d/1", ⟨"https://d/1", ⟨[], ["user1"], "pb"⟩, 0⟩) := by
  have h := destination_at_most_once
    ⟨"run1", "game1", "verified", ⟨"cat1", "Any%", []⟩, [],
      [⟨"user1", "", ⟨"Alice"⟩⟩], mkRat 0 1⟩
    [⟨"https://d/1", ⟨["cat1"], ["user1"], "all"⟩, 0⟩]
    "https://d/1" (fun _ _ => ⟨[]⟩) (by decide)
  refine ⟨h.1, ?_⟩
  exact h.2.2 ⟨"https://d/1", ⟨[], ["user1"], "pb"⟩, 0⟩ 0 (by decide)

/-- C10: every entry the matcher places into the per-run map carries a
`PlayerIndex` that is a valid index of the run's participant list, so the
participant lookups at `PlayerIndex` during classification and message
composition are in bounds. -/
theorem playerIndex_bounds (ws : List Webhook) (run : Data)
    (hp : run.players ≠ []) :
    ∀ e ∈ handleRunMatches ws run, e.2.playerIndex < run.players.length := by
  have hstep : ∀ (w : Webhook) (i : ℕ), matchWebhook run w = some i →
      (w.webhookUrl, setIndex w i).2.playerIndex < run.players.length := by
    intro w i hmw
    unfold matchWebhook at hmw
    by_cases hc : categoryHit run w
    · rw [if_pos hc] at hmw
      injection hmw with h0
      subst h0
      exact List.length_pos.mpr hp
    · rw [if_neg hc] at hmw
      exact findPlayerIdx_lt w.records.users run.players i hmw
  rw [handleRunMatches_eq_foldl]
  exact foldl_matchStep_mem run _ hstep ws [] (by simp)

/-- C10, witness: the participant-rule match at index 1 of a two-player
run yields a map entry whose PlayerIndex is within the player list. -/
theorem playerIndex_bounds_witness :
    (("https://d/1", (⟨"https://d/1", ⟨[], ["user2"], "all"⟩, 1⟩ : Webhook)) :
        String × Webhook).2.playerIndex <
      (⟨"run1", "game1", "verified", ⟨"cat1", "Any%", []⟩, [],
        [⟨"user1", "", ⟨"Alice"⟩⟩, ⟨"user2", "", ⟨"Bob"⟩⟩],
        mkRat 0 1⟩ : Data).players.length :=
  playerIndex_bounds
    [⟨"https://d/1", ⟨[], ["user2"], "all"⟩, 0⟩]
    ⟨"run1", "game1", "verified", ⟨"cat1", "Any%", []⟩, [],
      [⟨"user1", "", ⟨"Alice"⟩⟩, ⟨"user2", "", ⟨"Bob"⟩⟩], mkRat 0 1⟩
    (by decide)
    ("https://d/1", ⟨"https://d/1", ⟨[], ["user2"], "all"⟩, 1⟩)
    (by decide)

/-! ### Category-label composition lemmas -/

/-- Unfolding the accumulator on the empty label list. -/
lemma catAcc_nil (catName : String) : catAcc catName [] = "" := rfl

/-- Unfolding the accumulator on a cons cell. -/
lemma catAcc_cons (catName l : String) (ls : List String) :
    catAcc catName (l :: ls) =
      ls.foldl (fun s x => s ++ ", " ++ x) (catName ++ " (" ++ l) := rfl

/-- Unfolding the comma join on a cons cell. -/
lemma joinComma_cons (l : String) (ls : List String) :
    joinComma (l :: ls) = ls.foldl (fun s x => s ++ ", " ++ x) l := rfl

/-- Comma-folding can only grow a string. -/
lemma foldl_comma_length (a : String) :
    ∀ ls : List String,
      a.length ≤ (ls.foldl (fun s x => s ++ ", " ++ x) a).length := by
  intro ls
  induction ls generalizing a with
  | nil => exact le_rfl
  | cons x ls ih =>
    rw [List.foldl_cons]
    refine le_trans ?_ (ih (a ++ ", " ++ x))
    rw [String.length_append, String.length_append]
    omega

/-- A non-empty label list accumulates to a non-empty string. -/
lemma catAcc_ne_empty (catName l : String) (ls : List String) :
    catAcc catName (l :: ls) ≠ "" := by
  intro h
  have hlen := foldl_comma_length (catName ++ " (" ++ l) ls
  rw [catAcc_cons] at h
  rw [h] at hlen
  rw [String.length_append, String.length_append] at hlen
  have h2 : (" (" : String).length = 2 := by decide
  rw [h2] at hlen
  have h0 : ("" : String).length = 0 := by decide
  rw [h0] at hlen
  omega

/-- Appending one label to the accumulator. -/
lemma catAcc_append (catName x : String) :
    ∀ ls : List String,
      catAcc catName (ls ++ [x]) =
        if catAcc catName ls != "" then catAcc catName ls ++ ", " ++ x
        else catName ++ " (" ++ x := by
  intro ls
  cases ls with
  | nil => rfl
  | cons l ls =>
    rw [if_pos (bne_iff_ne.mpr (catAcc_ne_empty catName l ls))]
    rw [List.cons_append, catAcc_cons, catAcc_cons, List.foldl_append,
      List.foldl_cons, List.foldl_nil]

/-- A matched choice pushes its label onto the accumulator (subcategory
case) or leaves the `category` component alone (variable case). -/
lemma applyChoice_fst (catName : String) (v : GameVariable) (label : String)
    (st : String × String) (ls : List String) (hst : st.1 = catAcc catName ls) :
    (applyChoice catName v label st).1 =
      catAcc catName (ls ++ if v.isSubcategory then [label] else []) := by
  unfold applyChoice
  by_cases hsub : v.isSubcategory
  · rw [if_pos hsub, if_pos hsub]
    rw [catAcc_append]
    by_cases hne : st.1 != ""
    · rw [if_pos hne, if_pos (hst ▸ hne)]
      rw [hst]
    · rw [if_neg hne, if_neg (hst ▸ hne)]
  · rw [if_neg hsub, if_neg hsub, List.append_nil]
    by_cases hne : st.2 != "" <;> [rw [if_pos hne]; rw [if_neg hne]] <;> exact hst

/-- The empty choice list resolves no label. -/
lemma labelsOfChoices_nil (v : GameVariable) (value : String) :
    labelsOfChoices v value [] = [] := by
  unfold labelsOfChoices
  by_cases hsub : v.isSubcategory <;> simp [hsub]

/-- Unfolding the resolved labels on a cons cell of the choice list. -/
lemma labelsOfChoices_cons (v : GameVariable) (value : String)
    (ch : String × String) (rest : List (String × String)) :
    labelsOfChoices v value (ch :: rest) =
      (if ch.1 == value then (if v.isSubcategory then [ch.2] else []) else []) ++
        labelsOfChoices v value rest := by
  unfold labelsOfChoices
  by_cases hsub : v.isSubcategory
  · rw [if_pos hsub, if_pos hsub, List.filter_cons]
    by_cases hch : ch.1 == value
    · rw [if_pos hch, if_pos hch, if_pos hsub, List.map_cons, List.singleton_append]
    · rw [if_neg hch, if_neg hch, List.nil_append, if_pos hsub]
  · simp [hsub]

/-- One-step unfolding of the choice loop. -/
lemma choiceLoop_cons (catName : String) (v : GameVariable) (value : String)
    (ch : String × String) (rest : List (String × String)) (st : String × String) :
    choiceLoop catName v value (ch :: rest) st =
      choiceLoop catName v value rest
        (if ch.1 == value then applyChoice catName v ch.2 st else st) := rfl

/-- The choice loop appends exactly the labels it resolves. -/
lemma choiceLoop_fst (catName : String) (v : GameVariable) (value : String) :
    ∀ (chs : List (String × String)) (st : String × String) (ls : List String),
      st.1 = catAcc catName ls →
      (choiceLoop catName v value chs st).1 =
        catAcc catName (ls ++ labelsOfChoices v value chs) := by
  intro chs
  induction chs with
  | nil =>
    intro st ls hst
    rw [labelsOfChoices_nil, List.append_nil]
    exact hst
  | cons ch rest ih =>
    intro st ls hst
    rw [choiceLoop_cons]
    by_cases hch : ch.1 == value
    · rw [if_pos hch]
      have hst' := applyChoice_fst catName v ch.2 st ls hst
      rw [ih (applyChoice catName v ch.2 st)
        (ls ++ if v.isSubcategory then [ch.2] else []) hst']
      rw [labelsOfChoices_cons, if_pos hch, List.append_assoc]
    · rw [if_neg hch]
      rw [ih st ls hst, labelsOfChoices_cons, if_neg hch, List.nil_append]

/-- One-step unfolding of the variable loop. -/
lemma varLoop_cons (catName key value : String) (v : GameVariable)
    (rest : List GameVariable) (st : String × String) :
    varLoop catName key value (v :: rest) st =
      varLoop catName key value rest
        (if v.id == key then choiceLoop catName v value v.choices st else st) := rfl

/-- Unfolding the resolved labels on a cons cell of the variable list. -/
lemma labelsOfVars_cons (key value : String) (v : GameVariable)
    (rest : List GameVariable) :
    labelsOfVars key value (v :: rest) =
      (if v.id == key then labelsOfChoices v value v.choices else []) ++
        labelsOfVars key value rest := by
  rw [labelsOfVars, List.flatMap_cons]
  rfl

/-- The variable loop appends exactly the labels it resolves. -/
lemma varLoop_fst (catName key value : String) :
    ∀ (vars : List GameVariable) (st : String × String) (ls : List String),
      st.1 = catAcc catName ls →
      (varLoop catName key value vars st).1 =
        catAcc catName (ls ++ labelsOfVars key value vars) := by
  intro vars
  induction vars with
  | nil =>
    intro st ls hst
    rw [labelsOfVars, List.flatMap_nil, List.append_nil]
    exact hst
  | cons v rest ih =>
    intro st ls hst
    rw [varLoop_cons]
    by_cases hv : v.id == key
    · rw [if_pos hv]
      have hst' := choiceLoop_fst catName v value v.choices st ls hst
      rw [ih (choiceLoop catName v value v.choices st)
        (ls ++ labelsOfChoices v value v.choices) hst']
      rw [labelsOfVars_cons, if_pos hv, List.append_assoc]
    · rw [if_neg hv]
      rw [ih st ls hst, labelsOfVars_cons, if_neg hv, List.nil_append]

/-- One-step unfolding of the values loop. -/
lemma valuesLoop_cons (catName : String) (vars : List GameVariable)
    (kv : String × String) (rest : List (String × String)) (st : String × String) :
    valuesLoop catName vars (kv :: rest) st =
      valuesLoop catName vars rest (varLoop catName kv.1 kv.2 vars st) := rfl

/-- Unfolding the resolved labels on a cons cell of the values list. -/
lemma subcatLabels_cons (vars : List GameVariable) (kv : String × String)
    (rest : List (String × String)) :
    subcatLabels vars (kv :: rest) =
      labelsOfVars kv.1 kv.2 vars ++ subcatLabels vars rest := by
  rw [subcatLabels, List.flatMap_cons]
  rfl

/-- The values loop appends exactly the labels it resolves. -/
lemma valuesLoop_fst (catName : String) (vars : List GameVariable) :
    ∀ (values : List (String × String)) (st : String × String) (ls : List String),
      st.1 = catAcc catName ls →
      (valuesLoop catName vars values st).1 =
        catAcc catName (ls ++ subcatLabels vars values) := by
  intro values
  induction values with
  | nil =>
    intro st ls hst
    rw [subcatLabels, List.flatMap_nil, List.append_nil]
    exact hst
  | cons kv rest ih =>
    intro st ls hst
    rw [valuesLoop_cons]
    have hst' := varLoop_fst catName kv.1 kv.2 vars st ls hst
    rw [ih (varLoop catName kv.1 kv.2 vars st)
      (ls ++ labelsOfVars kv.1 kv.2 vars) hst']
    rw [subcatLabels_cons, List.append_assoc]

/-- The accumulated `category` string is the accumulator of the resolved
subcategory labels in values-iteration order. -/
lemma buildStrings_fst (catName : String) (vars : List GameVariable)
    (values : List (String × String)) :
    (buildStrings catName vars values).1 =
      catAcc catName (subcatLabels vars values) := by
  have := valuesLoop_fst catName vars values ("", "") [] rfl
  rw [buildStrings, this, List.nil_append]

/-- Folding from an extended accumulator distributes over the prefix. -/
lemma foldl_comma_prefix (a : String) :
    ∀ (ls : List String) (b : String),
      ls.foldl (fun s x => s ++ ", " ++ x) (a ++ b) =
        a ++ ls.foldl (fun s x => s ++ ", " ++ x) b := by
  intro ls
  induction ls with
  | nil => intro b; rfl
  | cons x ls ih =>
    intro b
    rw [List.foldl_cons, List.foldl_cons, String.append_assoc,
      String.append_assoc, ih (b ++ (", " ++ x)), String.append_assoc]

/-- Closing the parenthesis turns the accumulator into the composed
label. -/
lemma catAcc_close (catName l : String) (ls : List String) :
    catAcc catName (l :: ls) ++ ")" =
      catName ++ " (" ++ joinComma (l :: ls) ++ ")" := by
  rw [catAcc_cons, joinComma_cons]
  have := foldl_comma_prefix (catName ++ " (") ls l
  rw [this]

/-- C5, counterexample: with two subcategory variables declared in the
order V1, V2 and the run's chosen-variable entries iterated in the order
V2, V1, the composed label joins the labels in values-iteration order
("Cat (B, A)"), not in the category declaration order the claim asserts
("Cat (A, B)"). -/
theorem categoryLabel_values_order :
    categoryLabel ("Cat")
        [⟨"v1", "V1", true, [("c1", "A")]⟩, ⟨"v2", "V2", true, [("c2", "B")]⟩]
        [("v2", "c2"), ("v1", "c1")] = "Cat (B, A)" ∧
      "Cat" ++ " (" ++ joinComma (subcatLabelsDecl
        [⟨"v1", "V1", true, [("c1", "A")]⟩, ⟨"v2", "V2", true, [("c2", "B")]⟩]
        [("v2", "c2"), ("v1", "c1")]) ++ ")" = "Cat (A, B)" ∧
      categoryLabel ("Cat")
        [⟨"v1", "V1", true, [("c1", "A")]⟩, ⟨"v2", "V2", true, [("c2", "B")]⟩]
        [("v2", "c2"), ("v1", "c1")] ≠
      "Cat" ++ " (" ++ joinComma (subcatLabelsDecl
        [⟨"v1", "V1", true, [("c1", "A")]⟩, ⟨"v2", "V2", true, [("c2", "B")]⟩]
        [("v2", "c2"), ("v1", "c1")]) ++ ")" := by
  exact ⟨by decide, by decide, by decide⟩

/-- C5, amended: the composed category label is the base category name
and, when at least one chosen variable resolves to a subcategory-defining
choice, the resolved choice labels are appended in parentheses,
comma-joined in the iteration order of the run's chosen-variable mapping
(for each entry, resolving variables in declaration order) — not
necessarily the category declaration order. Base category "Any%" with the
single subcategory choice "No Major Glitches" renders as
"Any% (No Major Glitches)". -/
theorem categoryLabel_join_order (catName : String) (vars : List GameVariable)
    (values : List (String × String)) :
    categoryLabel catName vars values =
        (if subcatLabels vars values = [] then catName
         else catName ++ " (" ++ joinComma (subcatLabels vars values) ++ ")") ∧
      categoryLabel ("Any%") [⟨"v1", "Subcat", true, [("c1", "No Major Glitches")]⟩]
        [("v1", "c1")] = "Any% (No Major Glitches)" := by
  refine ⟨?_, by decide⟩
  show (if (buildStrings catName vars values).1 != "" then
      (buildStrings catName vars values).1 ++ ")" else catName) = _
  rw [buildStrings_fst]
  cases hls : subcatLabels vars values with
  | nil =>
    rw [catAcc_nil, if_neg (by decide), if_pos rfl]
  | cons l ls =>
    rw [if_pos (bne_iff_ne.mpr (catAcc_ne_empty catName l ls)),
      if_neg (List.cons_ne_nil l ls)]
    exact catAcc_close catName l ls

/-- A choice loop with no matching choice id leaves the state alone. -/
lemma choiceLoop_noop (catName : String) (v : GameVariable) (value : String) :
    ∀ (chs : List (String × String)) (st : String × String),
      chs.any (fun ch => ch.1 == value) = false →
      choiceLoop catName v value chs st = st := by
  intro chs
  induction chs with
  | nil => intro st _; rfl
  | cons ch rest ih =>
    intro st h
    rw [List.any_cons, Bool.or_eq_false_iff] at h
    rw [choiceLoop_cons, if_neg (by rw [h.1]; exact Bool.false_ne_true)]
    exact ih st h.2

/-- A variable loop on an unresolvable entry leaves the state alone. -/
lemma varLoop_noop (catName : String) (kv : String × String) :
    ∀ (vars : List GameVariable) (st : String × String),
      resolvable vars kv = false →
      varLoop catName kv.1 kv.2 vars st = st := by
  intro vars
  induction vars with
  | nil => intro st _; rfl
  | cons v rest ih =>
    intro st h
    rw [resolvable, List.any_cons, Bool.or_eq_false_iff] at h
    rw [varLoop_cons]
    by_cases hv : v.id == kv.1
    · rw [if_pos hv]
      have hch : v.choices.any (fun ch => ch.1 == kv.2) = false := by
        have := h.1
        rw [Bool.and_eq_false_iff] at this
        rcases this with h1 | h1
        · exact absurd hv (by rw [h1]; exact Bool.false_ne_true)
        · exact h1
      rw [choiceLoop_noop catName v kv.2 v.choices st hch]
      exact ih st h.2
    · rw [if_neg hv]
      exact ih st h.2

/-- Dropping the unresolvable entries does not change the accumulated
strings. -/
lemma valuesLoop_filter (catName : String) (vars : List GameVariable) :
    ∀ (values : List (String × String)) (st : String × String),
      valuesLoop catName vars (values.filter (resolvable vars)) st =
        valuesLoop catName vars values st := by
  intro values
  induction values with
  | nil => intro st; rfl
  | cons kv rest ih =>
    intro st
    rw [List.filter_cons]
    by_cases hr : resolvable vars kv
    · rw [if_pos hr, valuesLoop_cons, valuesLoop_cons]
      exact ih (varLoop catName kv.1 kv.2 vars st)
    · rw [if_neg hr, valuesLoop_cons,
        varLoop_noop catName kv vars st (Bool.eq_false_iff.mpr hr)]
      exact ih st

/-- C9: a key of the run's chosen-variable mapping contributes to the
composed category label or to the Variables field only if it resolves to
a variable declared on the run's category and to a declared choice;
entries that do not resolve are silently skipped — restricting the
mapping to its resolvable entries leaves both composed fields unchanged,
and composition is a total function (never an error). -/
theorem unresolved_values_skipped (catName : String) (vars : List GameVariable)
    (values : List (String × String)) :
    categoryLabel catName vars (values.filter (resolvable vars)) =
        categoryLabel catName vars values ∧
      variablesField catName vars (values.filter (resolvable vars)) =
        variablesField catName vars values := by
  have hb : buildStrings catName vars (values.filter (resolvable vars)) =
      buildStrings catName vars values :=
    valuesLoop_filter catName vars values ("", "")
  simp only [categoryLabel, variablesField]
  rw [hb]
  exact ⟨rfl, rfl⟩

/-! ### Handler and delivery theorems -/

/-- C6, counterexample: a submission body that fails to parse (as an empty
body does) hits `log.Fatal`, and a body parsing to an empty run list
panics indexing `data[0]` — in both cases processing of the batch does
not complete without a fatal error, contradicting the claim. -/
theorem empty_body_fatal :
    runsHandler none [] (fun _ _ => ⟨[]⟩) = HandlerOutcome.fatal ∧
      runsHandler (some []) [] (fun _ _ => ⟨[]⟩) = HandlerOutcome.fatal := by
  exact ⟨rfl, rfl⟩

/-- C6, amended: an empty or unparsable submission body is fatal
(`log.Fatal` on the unmarshal error, or a panic indexing the first run of
an empty list); for a parsed batch with at least one run, a non-"verified"
leading status, zero stored subscriptions, or zero subscriptions matching
any run completes without a fatal error and issues zero delivery POSTs. -/
theorem no_match_no_posts (d : Data) (ds : List Data) (ws : List Webhook)
    (oracle : String → String → PBs)
    (hp : ∀ run ∈ d :: ds, run.players ≠ []) :
    (d.status ≠ "verified" → runsHandler (some (d :: ds)) ws oracle =
        HandlerOutcome.ok []) ∧
      ((∀ run ∈ d :: ds, handleRunMatches ws run = []) →
        runsHandler (some (d :: ds)) ws oracle = HandlerOutcome.ok []) ∧
      (ws = [] → runsHandler (some (d :: ds)) ws oracle = HandlerOutcome.ok []) := by
  have hverifiedEmpty : (∀ run ∈ d :: ds, handleRunMatches ws run = []) →
      runsHandler (some (d :: ds)) ws oracle = HandlerOutcome.ok [] := by
    intro hmatch
    by_cases hs : d.status == "verified"
    · rw [runsHandler, if_pos hs]
      have hposts : handleVerifiedPosts oracle ws (d :: ds) = [] := by
        rw [handleVerifiedPosts, List.flatMap_eq_nil_iff]
        intro run hrun
        rw [hmatch run hrun]
        rfl
      rw [hposts]
    · rw [runsHandler, if_neg hs]
  refine ⟨fun hs => ?_, hverifiedEmpty, fun hws => hverifiedEmpty ?_⟩
  · rw [runsHandler, if_neg (by simpa using hs)]
  · intro run _
    rw [hws]
    rfl

/-- C6, witness: a one-run batch with status "new" and no subscriptions
yields no POSTs, and so does a "verified" run that no subscription
matches. -/
theorem no_match_no_posts_witness :
    runsHandler
        (some [⟨"run1", "game1", "new", ⟨"cat1", "Any%", []⟩, [],
          [⟨"user1", "", ⟨"Alice"⟩⟩], mkRat 0 1⟩])
        [] (fun _ _ => ⟨[]⟩) = HandlerOutcome.ok [] ∧
      runsHandler
        (some [⟨"run1", "game1", "verified", ⟨"cat1", "Any%", []⟩, [],
          [⟨"user1", "", ⟨"Alice"⟩⟩], mkRat 0 1⟩])
        [⟨"https://d/1", ⟨["other"], ["someone"], "all"⟩, 0⟩]
        (fun _ _ => ⟨[]⟩) = HandlerOutcome.ok [] := by
  constructor
  · exact (no_match_no_posts
      ⟨"run1", "game1", "new", ⟨"cat1", "Any%", []⟩, [],
        [⟨"user1", "", ⟨"Alice"⟩⟩], mkRat 0 1⟩ [] [] (fun _ _ => ⟨[]⟩)
      (by intro run hrun; fin_cases hrun; decide)).1 (by decide)
  · exact (no_match_no_posts
      ⟨"run1", "game1", "verified", ⟨"cat1", "Any%", []⟩, [],
        [⟨"user1", "", ⟨"Alice"⟩⟩], mkRat 0 1⟩ []
      [⟨"https://d/1", ⟨["other"], ["someone"], "all"⟩, 0⟩] (fun _ _ => ⟨[]⟩)
      (by intro run hrun; fin_cases hrun; decide)).2.1
      (by intro run hrun; fin_cases hrun; decide)

/-- C7: the claim says a delivery whose POST fails with a transport error
is logged and dropped without affecting the rest of the batch; the code
logs the error but then reads `res.StatusCode` from the nil response,
which panics and kills the whole process (and a non-2xx status other than
404/429, such as 500, is dropped without being logged). -/
theorem transport_error_crashes :
    afterPost DeliverResult.transportError =
        ⟨true, true, false⟩ ∧
      afterPost (DeliverResult.status 500) = ⟨false, false, false⟩ ∧
      afterPost (DeliverResult.status 200) = ⟨false, false, false⟩ := by
  exact ⟨rfl, rfl, rfl⟩

/-- One-step unfolding of `deleteOne` on a cons cell. -/
lemma deleteOne_cons (w : Webhook) (rest : List Webhook) (url : String) :
    deleteOne (w :: rest) url =
      if w.webhookUrl == url then rest else w :: deleteOne rest url := rfl

/-- Deleting a URL that keys no stored subscription is a no-op. -/
lemma deleteOne_absent (url : String) :
    ∀ store : List Webhook, (∀ w ∈ store, w.webhookUrl ≠ url) →
      deleteOne store url = store := by
  intro store
  induction store with
  | nil => intro _; rfl
  | cons w rest ih =>
    intro habs
    rw [deleteOne_cons, if_neg (by
      intro hbe
      exact habs w (by simp) (beq_iff_eq.mp hbe))]
    rw [ih fun v hv => habs v (List.mem_cons_of_mem _ hv)]

/-- Deleting a URL with no matching entry (counted) is a no-op. -/
lemma deleteOne_count_zero (url : String) :
    ∀ store : List Webhook,
      store.countP (fun w => w.webhookUrl == url) = 0 →
      deleteOne store url = store := by
  intro store h0
  refine deleteOne_absent url store fun w hw hurl => ?_
  have := List.countP_eq_zero.mp h0 w hw
  rw [hurl] at this
  exact this (beq_self_eq_true url)

/-- Deleting the only matching subscription leaves none. -/
lemma deleteOne_count_one (url : String) :
    ∀ store : List Webhook,
      store.countP (fun w => w.webhookUrl == url) = 1 →
      (deleteOne store url).countP (fun w => w.webhookUrl == url) = 0 := by
  intro store
  induction store with
  | nil =>
    intro h
    rw [List.countP_nil] at h
    exact absurd h (by decide)
  | cons w rest ih =>
    intro h1
    rw [List.countP_cons] at h1
    by_cases hw : w.webhookUrl == url
    · rw [deleteOne_cons, if_pos hw]
      rw [if_pos hw] at h1
      omega
    · rw [deleteOne_cons, if_neg hw, List.countP_cons, if_neg hw]
      rw [if_neg hw] at h1
      rw [ih (by omega)]

/-- Under unique URL keys, deleting twice equals deleting once. -/
lemma deleteOne_idem (url : String) :
    ∀ store : List Webhook,
      store.countP (fun w => w.webhookUrl == url) ≤ 1 →
      deleteOne (deleteOne store url) url = deleteOne store url := by
  intro store
  induction store with
  | nil => intro _; rfl
  | cons w rest ih =>
    intro hle
    rw [List.countP_cons] at hle
    by_cases hw : w.webhookUrl == url
    · rw [deleteOne_cons, if_pos hw]
      rw [if_pos hw] at hle
      exact deleteOne_count_zero url rest (by omega)
    · rw [deleteOne_cons, if_neg hw, deleteOne_cons, if_neg hw]
      rw [if_neg hw] at hle
      rw [ih (by omega)]

/-- C8: an HTTP 404 triggers DeleteWebhook for the destination;
`DeleteOne` removes nothing — and reports no error — when no stored
subscription matches the URL, and under the store invariant that a URL
keys at most one subscription, deleting twice equals deleting once and a
present subscription is removed exactly once (count drops to zero). -/
theorem delete_webhook_once (store : List Webhook) (url : String) :
    (afterPost (DeliverResult.status 404)).deleted = true ∧
      ((∀ w ∈ store, w.webhookUrl ≠ url) →
        deleteOne store url = store ∧ deletedCount store url = 0) ∧
      (store.countP (fun w => w.webhookUrl == url) ≤ 1 →
        deleteOne (deleteOne store url) url = deleteOne store url) ∧
      (store.countP (fun w => w.webhookUrl == url) = 1 →
        (deleteOne store url).countP (fun w => w.webhookUrl == url) = 0) := by
  refine ⟨by decide, fun habs => ⟨deleteOne_absent url store habs, ?_⟩,
    deleteOne_idem url store, deleteOne_count_one url store⟩
  rw [deletedCount, if_neg]
  intro hany
  rcases List.any_eq_true.mp hany with ⟨w, hw, hbe⟩
  exact habs w hw (beq_iff_eq.mp hbe)

/-- C8, witness: a store holding exactly the subscription for the URL:
deleting removes it once, deleting again is a no-op, and deleting a URL
that is absent changes nothing. -/
theorem delete_webhook_once_witness :
    (afterPost (DeliverResult.status 404)).deleted = true ∧
      deleteOne [⟨"https://d/1", ⟨[], [], "all"⟩, 0⟩] ("https://gone") =
        [⟨"https://d/1", ⟨[], [], "all"⟩, 0⟩] ∧
      deleteOne (deleteOne [⟨"https://d/1", ⟨[], [], "all"⟩, 0⟩] ("https://d/1"))
          "https://d/1" =
        deleteOne [⟨"https://d/1", ⟨[], [], "all"⟩, 0⟩] ("https://d/1") ∧
      (deleteOne [⟨"https://d/1", ⟨[], [], "all"⟩, 0⟩] ("https://d/1")).countP
        (fun w => w.webhookUrl == "https://d/1") = 0 := by
  have h1 := delete_webhook_once [⟨"https://d/1", ⟨[], [], "all"⟩, 0⟩] ("https://gone")
  have h2 := delete_webhook_once [⟨"https://d/1", ⟨[], [], "all"⟩, 0⟩] ("https://d/1")
  refine ⟨h2.1, ?_, ?_, ?_⟩
  · exact (h1.2.1 (by intro w hw; fin_cases hw; decide)).1
  · exact h2.2.2.1 (by decide)
  · exact h2.2.2.2 (by decide)

end SRC
